import Mathlib

set_option maxHeartbeats 1000000

set_option synthInstance.maxSize 2048

/-!
Verification development for the snapshot-value codec and the account state
object of the state-expiry fork of go-ethereum.

Bytes are modelled as lists of natural numbers (each entry standing for one
byte); fixed 32-byte hashes and storage values (the Go type common.Hash) are
lists produced by setBytes32.  The RLP serialization primitive is not part of
the excerpt under verification; its byte-string, unsigned-integer and list
encodings are modelled below from the specification of the underlying keyed
serialization format (canonical Ethereum RLP): string and list headers start
at 0x80, a single byte below 0x80 encodes as itself, and decoding is strictly
canonical.  Error identities are collapsed into a small error type; the code
under verification only ever distinguishes the storage-expired error and the
unsupported-snapshot-type error from generic failures.
-/

abbrev Bytes := List Nat

abbrev Word := List Nat

/-- The all-zero 32-byte hash, common.Hash\x7b\x7d. -/
def zeroWord : Word := List.replicate 32 0

/-- common.Hash.SetBytes / common.BytesToHash: crop from the left to 32 bytes,
then left-pad with zeroes to exactly 32 bytes. -/
def setBytes32 (b : Bytes) : Word :=
  let c := if b.length ≤ 32 then b else b.drop (b.length - 32)
  List.replicate (32 - c.length) 0 ++ c

/-- common.TrimLeftZeroes. -/
def trimLeftZeroes (b : Bytes) : Bytes := b.dropWhile (fun x => x == 0)

/-- Collapsed error type.  storageExpired stands for snapshot.ErrStorageExpired,
snapValueNotSupport for snapshot.ErrSnapValueNotSupport, rlpErr for any error
produced by the rlp primitive, ioErr for collaborator I/O failures. -/
inductive GoErr where
  | storageExpired
  | snapValueNotSupport
  | rlpErr
  | ioErr
  deriving DecidableEq, Repr

/-- Modelled from the spec: minimal big-endian byte representation used by the
underlying serialization for integers and long-form lengths (empty for 0). -/
def beBytes (n : Nat) : Bytes :=
  if h : n = 0 then [] else beBytes (n / 256) ++ [n % 256]
termination_by n
decreasing_by exact Nat.div_lt_self (Nat.pos_of_ne_zero h) (by omega)

/-- Big-endian value of a byte list. -/
def parseBE (l : Bytes) : Nat := l.foldl (fun a b => a * 256 + b) 0

inductive RlpKind where
  | byteKind
  | stringKind
  | listKind
  deriving DecidableEq, Repr

/-- Modelled from the spec: rlp.Split of the underlying serialization.  Returns
the kind, the content of the first value, and the remaining bytes, enforcing
the canonical-form checks of the primitive (single bytes below 0x80 must be
encoded as themselves, long forms require length at least 56 and no leading
zero in the length bytes). -/
def rlpSplit (b : Bytes) : Except GoErr (RlpKind × Bytes × Bytes) :=
  match b with
  | [] => .error .rlpErr
  | b0 :: rest =>
    if b0 ≤ 0x7f then .ok (.byteKind, [b0], rest)
    else if b0 ≤ 0xb7 then
      let size := b0 - 0x80
      if size = 1 ∧ rest.headD 0 < 0x80 then .error .rlpErr
      else if rest.length < size then .error .rlpErr
      else .ok (.stringKind, rest.take size, rest.drop size)
    else if b0 ≤ 0xbf then
      let ll := b0 - 0xb7
      let szb := rest.take ll
      if rest.length < ll ∨ szb.headD 0 = 0 then .error .rlpErr
      else
        let size := parseBE szb
        if size < 56 ∨ (rest.drop ll).length < size then .error .rlpErr
        else .ok (.stringKind, (rest.drop ll).take size, (rest.drop ll).drop size)
    else if b0 ≤ 0xf7 then
      let size := b0 - 0xc0
      if rest.length < size then .error .rlpErr
      else .ok (.listKind, rest.take size, rest.drop size)
    else
      let ll := b0 - 0xf7
      let szb := rest.take ll
      if rest.length < ll ∨ szb.headD 0 = 0 then .error .rlpErr
      else
        let size := parseBE szb
        if size < 56 ∨ (rest.drop ll).length < size then .error .rlpErr
        else .ok (.listKind, (rest.drop ll).take size, (rest.drop ll).drop size)

/-- Modelled from the spec: rlp.EncodeToBytes for a byte slice.  A single byte
below 0x80 encodes as itself; otherwise a header carrying the length comes
first. -/
def rlpEncodeBytes (bs : Bytes) : Bytes :=
  if bs.length = 1 ∧ bs.headD 0 ≤ 0x7f then bs
  else if bs.length ≤ 55 then (0x80 + bs.length) :: bs
  else (0xb7 + (beBytes bs.length).length) :: (beBytes bs.length ++ bs)

/-- Modelled from the spec: rlp encoding of an unsigned integer (the StateEpoch
counter), canonical minimal big-endian form. -/
def encodeUintRLP (n : Nat) : Bytes :=
  if n = 0 then [0x80]
  else if n ≤ 0x7f then [n]
  else (0x80 + (beBytes n).length) :: beBytes n

/-- Modelled from the spec: rlp list encoding given the already-encoded
payload. -/
def rlpEncodeList (payload : Bytes) : Bytes :=
  if payload.length ≤ 55 then (0xc0 + payload.length) :: payload
  else (0xf7 + (beBytes payload.length).length) :: (beBytes payload.length ++ payload)

/-- The SnapValue variants of core/state/snapshot/snapshot_value.go: RawValue
(bare bytes, at most 32 per the source comment), ValueWithEpoch (epoch plus a
32-byte value hash) and ShrinkNodeWithEpoch (epoch plus a 32-byte trie node
hash).  The StateEpoch payload is modelled as Nat; it is an unsigned integer
in the repository. -/
inductive SnapValue where
  | rawValue (val : Bytes)
  | valueWithEpoch (epoch : Nat) (val : Word)
  | shrinkNodeWithEpoch (epoch : Nat) (hash : Word)
  deriving DecidableEq, Repr

/-- GetType: RawValueType = 0, ValueWithEpochType = 1, ShrinkNodeWithEpochType = 2. -/
def SnapValue.getType : SnapValue → Nat
  | .rawValue _ => 0
  | .valueWithEpoch _ _ => 1
  | .shrinkNodeWithEpoch _ _ => 2

/-- GetEpoch: a RawValue reports StateEpoch0. -/
def SnapValue.getEpoch : SnapValue → Nat
  | .rawValue _ => 0
  | .valueWithEpoch e _ => e
  | .shrinkNodeWithEpoch e _ => e

/-- GetVal: a RawValue is widened with BytesToHash, a ShrinkNodeWithEpoch
cannot provide a value and reports the zero hash. -/
def SnapValue.getVal : SnapValue → Word
  | .rawValue v => setBytes32 v
  | .valueWithEpoch _ v => v
  | .shrinkNodeWithEpoch _ _ => zeroWord

/-- rlp encoding of the two-field epoch structs (ValueWithEpoch and
ShrinkNodeWithEpoch): a list of the epoch integer followed by the 32-byte
hash. -/
def encodeEpochStructRLP (epoch : Nat) (h : Word) : Bytes :=
  rlpEncodeList (encodeUintRLP epoch ++ rlpEncodeBytes h)

/-- encodeValTyped: the explicit type tag followed by the rlp encoding of the
value itself.  The Go function returns an error channel that is never used for
these inputs (writing to an in-memory buffer cannot fail), so the model is
pure. -/
def encodeValTyped (v : SnapValue) : Bytes :=
  v.getType ::
    (match v with
     | .rawValue r => rlpEncodeBytes r
     | .valueWithEpoch e h => encodeEpochStructRLP e h
     | .shrinkNodeWithEpoch e h => encodeEpochStructRLP e h)

/-- EncodeValueToRLPBytes: a RawValue is encoded as a plain rlp byte string
with no tag; the other variants go through encodeValTyped.  The error return
of the Go function is always nil on these inputs, so the model is pure. -/
def EncodeValueToRLPBytes : SnapValue → Bytes
  | .rawValue r => rlpEncodeBytes r
  | v => encodeValTyped v

/-- Stream decoding of an unsigned integer field (rlp.DecodeBytes into a
StateEpoch), canonical: a zero byte, an oversized payload (more than 8 bytes),
or a leading zero byte is rejected. -/
def decodeUintStream (b : Bytes) : Except GoErr (Nat × Bytes) :=
  match rlpSplit b with
  | .error e => .error e
  | .ok (.byteKind, c, r) => if c.headD 0 = 0 then .error .rlpErr else .ok (c.headD 0, r)
  | .ok (.stringKind, c, r) =>
    if 8 < c.length then .error .rlpErr
    else if c.headD 1 = 0 then .error .rlpErr
    else .ok (parseBE c, r)
  | .ok (.listKind, _, _) => .error .rlpErr

/-- Stream decoding of a common.Hash field: exactly a 32-byte string. -/
def decodeHash32 (b : Bytes) : Except GoErr (Word × Bytes) :=
  match rlpSplit b with
  | .error e => .error e
  | .ok (.stringKind, c, r) => if c.length = 32 then .ok (c, r) else .error .rlpErr
  | .ok (_, _, _) => .error .rlpErr

/-- rlp.DecodeBytes into one of the two-field epoch structs: a single list
holding the epoch integer and the 32-byte hash, with no trailing bytes at
either level. -/
def decodeEpochStructRLP (b : Bytes) : Except GoErr (Nat × Word) :=
  match rlpSplit b with
  | .error e => .error e
  | .ok (.listKind, content, rest) =>
    if rest ≠ [] then .error .rlpErr
    else
      match decodeUintStream content with
      | .error e => .error e
      | .ok (epoch, r1) =>
        match decodeHash32 r1 with
        | .error e => .error e
        | .ok (h, r2) => if r2 = [] then .ok (epoch, h) else .error .rlpErr
  | .ok (_, _, _) => .error .rlpErr

/-- Outcome of running the decoder: a value, a Go error, or a runtime crash
(a Go panic, such as an index-out-of-range slice access). -/
inductive DecodeOutcome where
  | ok (v : SnapValue)
  | err (e : GoErr)
  | crash
  deriving DecidableEq, Repr

/-- decodeValTyped: dispatch on the leading type tag.  On an empty input the
Go function evaluates b[0] and panics with an index-out-of-range error, which
the model records as a crash.  Tag 0 (RawValueType) has no case and falls to
the unsupported-type error. -/
def decodeValTyped : Bytes → DecodeOutcome
  | [] => .crash
  | b0 :: rest =>
    if b0 = 1 then
      match decodeEpochStructRLP rest with
      | .ok (e, h) => .ok (.valueWithEpoch e h)
      | .error e => .err e
    else if b0 = 2 then
      match decodeEpochStructRLP rest with
      | .ok (e, h) => .ok (.shrinkNodeWithEpoch e h)
      | .error e => .err e
    else .err .snapValueNotSupport

/-- DecodeValueFromRLPBytes: a first byte above 0x7f means a raw value, read
with rlp.Split (the kind is ignored by the Go code); otherwise the input is
treated as tagged. -/
def DecodeValueFromRLPBytes (b : Bytes) : DecodeOutcome :=
  if 0 < b.length ∧ 0x7f < b.headD 0 then
    match rlpSplit b with
    | .error e => .err e
    | .ok (_, content, _) => .ok (.rawValue content)
  else decodeValTyped b

/-- GetValueTypeFromRLPBytes: none models the Go panic that evaluating b[0]
on an empty slice produces. -/
def GetValueTypeFromRLPBytes (b : Bytes) : Option Nat :=
  if 0 < b.length ∧ 0x7f < b.headD 0 then some 0
  else b.head?

/-- The invariants the codec maintains for stored values: a RawValue holds at
most 32 bytes (per the source comment on RawValueType), the epoch fits the
unsigned epoch integer, and the hash payloads are exactly 32 bytes.  The
additional RawValue condition excludes the one-byte values below 0x80 whose
rlp encoding coincides with a bare type tag. -/
def SnapValueWF : SnapValue → Prop
  | .rawValue r => r.length ≤ 32 ∧ ¬(r.length = 1 ∧ r.headD 0 ≤ 0x7f)
  | .valueWithEpoch e h => e < 2 ^ 64 ∧ h.length = 32
  | .shrinkNodeWithEpoch e h => e < 2 ^ 64 ∧ h.length = 32

/-!
Association-list maps.  Go maps have unique keys; ainsert replaces the entry
of an existing key and otherwise appends, so that key uniqueness is preserved
and the length checks of the source (len(m) greater than 0) are meaningful.
Go map iteration order is unspecified; loops below iterate in list order,
which is one admissible order, and the verified statements do not depend on
the order chosen.
-/

def alookup {α β : Type} [DecidableEq α] : List (α × β) → α → Option β
  | [], _ => none
  | (k, v) :: t, a => if k = a then some v else alookup t a

def ainsert {α β : Type} [DecidableEq α] : List (α × β) → α → β → List (α × β)
  | [], a, b => [(a, b)]
  | (k, v) :: t, a, b => if k = a then (a, b) :: t else (k, v) :: ainsert t a b

/-- A storage-trie handle: the committed base (read through Env.trieGet) plus
the uncommitted writes issued on this handle, newest entry authoritative per
key; none records a deletion. -/
abbrev TrieLog := List (Word × Option Bytes)

/-- types.StateAccount: the fields this excerpt touches. -/
structure StateAccount where
  nonce : Nat
  balance : Int
  root : Word
  codeHash : Bytes
  deriving DecidableEq, Repr

/-- Undo records appended to the StateDB journal by the operations modelled
here (touchChange, storageChange, balanceChange).  The account pointer
carried by each Go record is implicit: the model tracks a single account. -/
inductive JEntry where
  | touchChange
  | storageChange (key : Word) (prevalue : Word)
  | balanceChange (prev : Int)
  deriving DecidableEq, Repr

/-- The ambient StateDB configuration and the external collaborators consumed
by one stateObject, all constant during a block: the expiry-mode flag and the
current epoch, the optional flat snapshot reader (indexed by hashed key; the
account hash is fixed), the key hashing function, the committed storage trie
reader, the result of OpenStorageTrie (none means success), membership of the
address in stateObjectsDestruct, the Commit function of the trie collaborator
(given the accumulated writes, returns the new root or an error), and whether
the address is the ripemd precompile. -/
structure Env where
  enableExpire : Bool
  epoch : Nat
  snap : Option (Word → Except GoErr Bytes)
  keccak : Word → Word
  trieGet : Word → Except GoErr Bytes
  openTrie : Option GoErr
  destructed : Bool
  commitFn : TrieLog → Except GoErr Word
  isRipemd : Bool

/-- The stateObject of part_001 together with the per-account slices of
StateDB state that its methods mutate: the undo journal, the sticky database
error, the mutated-slot table (storages, keyed by hashed key; none records a
deletion) and the slot origin-value table (storagesOrigin, keyed by hashed
key; a none value records a slot that did not previously exist), and the
StorageUpdated / StorageDeleted counters.  journalDirtyMarked mirrors the
journal.dirty call made for the ripemd address. -/
structure SObj where
  data : StateAccount
  origin : Option StateAccount
  trie : Option TrieLog
  pendingReviveTrie : Option TrieLog
  originStorage : List (Word × Word)
  pendingStorage : List (Word × Word)
  dirtyStorage : List (Word × Word)
  pendingReviveState : List (Word × Word)
  pendingAccessedState : List (Word × Nat)
  originStorageEpoch : List (Word × Nat)
  dirtyCode : Bool
  selfDestructed : Bool
  deleted : Bool
  journal : List JEntry
  dbErr : Option GoErr
  dbStorages : List (Word × Option Bytes)
  dbStoragesOrigin : List (Word × Option Bytes)
  storageUpdated : Nat
  storageDeleted : Nat
  journalDirtyMarked : Bool
  deriving DecidableEq, Repr

/-- StateDB.setError: the first error sticks. -/
def setDbError (s : SObj) (e : GoErr) : SObj :=
  if s.dbErr.isNone then {s with dbErr := some e} else s

def emptyCodeHash : Bytes :=
  [0xc5, 0xd2, 0x46, 0x01, 0x86, 0xf7, 0x23, 0x3c, 0x92, 0x7e, 0x7d, 0xb2,
   0xdc, 0xc7, 0x03, 0xc0, 0xe5, 0x00, 0xb6, 0x53, 0xca, 0x82, 0x27, 0x3b,
   0x7b, 0xfa, 0xd8, 0x04, 0x5d, 0x85, 0xa4, 0x70]

/-- stateObject.empty: zero nonce, zero balance and the empty code hash. -/
def SObj.empty (s : SObj) : Bool :=
  s.data.nonce == 0 && s.data.balance == 0 && s.data.codeHash == emptyCodeHash

/-- stateObject.touch: append a touchChange undo record; the ripemd address
is additionally marked dirty in the journal. -/
def touch (E : Env) (s : SObj) : SObj :=
  let s1 := {s with journal := s.journal ++ [JEntry.touchChange]}
  if E.isRipemd then {s1 with journalDirtyMarked := true} else s1

/-- stateObject.getTrie: materialize the storage trie handle on first use.
The prefetcher fast path only selects which handle object is opened and is
not modelled; OpenStorageTrie may fail. -/
def getTrieM (E : Env) (s : SObj) : Except GoErr Unit × SObj :=
  match s.trie with
  | some _ => (.ok (), s)
  | none =>
    match E.openTrie with
    | some e => (.error e, s)
    | none => (.ok (), {s with trie := some []})

/-- stateObject.getPendingReviveTrie: a copy of the main trie handle,
materialized on first use. -/
def getPendingReviveTrieM (E : Env) (s : SObj) : Except GoErr Unit × SObj :=
  match s.pendingReviveTrie with
  | some _ => (.ok (), s)
  | none =>
    let r := getTrieM E s
    match r.1 with
    | .error e => (.error e, r.2)
    | .ok _ => (.ok (), {r.2 with pendingReviveTrie := some (r.2.trie.getD [])})

/-- Trie.GetStorage through a handle: uncommitted writes shadow the committed
base. -/
def trieHGet (E : Env) (h : TrieLog) (key : Word) : Except GoErr Bytes :=
  match alookup h key with
  | some (some b) => .ok b
  | some none => .ok []
  | none => E.trieGet key

/-- stateObject.queryFromReviveState: look the key up under its digest. -/
def queryFromReviveState (E : Env) (reviveState : List (Word × Word)) (key : Word) : Option Word :=
  alookup reviveState (E.keccak key)

/-- needLoadFromTrie of part_001: no snapshot means always load; with a
snapshot, outside expiry mode load exactly on a snapshot error, and in expiry
mode also when the snapshot produced no bytes. -/
def needLoadFromTrie (E : Env) (enc : Bytes) (err : Option GoErr) : Bool :=
  if E.snap.isNone then true
  else if !E.enableExpire then err.isSome
  else if err.isSome || enc.length == 0 then true
  else false

/-- The snapshot phase of GetCommittedState: returns the enc bytes and err
used by needLoadFromTrie, the value resolved so far, and the state (the
expiry path caches the decoded epoch; the legacy path records a split error
in the sticky database error while leaving the outer err nil, as the Go code
shadows err inside that branch).  A storage-expired snapshot error is
swallowed, per the open question flagged in the spec.  The crash arm is
unreachable: the decoder only crashes on empty input, excluded by the length
guard. -/
def snapPhase (E : Env) (s : SObj) (key : Word) : Bytes × Option GoErr × Word × SObj :=
  match E.snap with
  | none => ([], none, zeroWord, s)
  | some snapFn =>
    if E.enableExpire then
      match snapFn (E.keccak key) with
      | .error e =>
        if e = .storageExpired then ([], none, zeroWord, s) else ([], some e, zeroWord, s)
      | .ok enc =>
        if 0 < enc.length then
          match DecodeValueFromRLPBytes enc with
          | .ok sv =>
            (enc, none, sv.getVal,
              {s with originStorageEpoch := ainsert s.originStorageEpoch key sv.getEpoch})
          | .err e => ([], some e, zeroWord, s)
          | .crash => ([], some .rlpErr, zeroWord, s)
        else (enc, none, zeroWord, s)
    else
      match snapFn (E.keccak key) with
      | .error e => ([], some e, zeroWord, s)
      | .ok enc =>
        if 0 < enc.length then
          match rlpSplit enc with
          | .error ie => (enc, none, zeroWord, setDbError s ie)
          | .ok (_, content, _) => (enc, none, setBytes32 content, s)
        else (enc, none, zeroWord, s)

/-- The final caching step of GetCommittedState: the resolved value, zero or
not, is recorded in originStorage. -/
def gcsFinish (s : SObj) (key : Word) (value : Word) : Word × SObj :=
  (value, {s with originStorage := ainsert s.originStorage key value})

/-- stateObject.GetCommittedState: pending writes first, then (in expiry
mode) proof-revived values, then the origin cache; an account destructed in
this block answers zero without consulting snapshot or trie; otherwise the
snapshot phase runs and, when needLoadFromTrie says so, the storage trie is
read (a storage-expired trie error being swallowed to a zero read in expiry
mode); the resolved value is cached before returning, except on the error
returns. -/
def GetCommittedState (E : Env) (s : SObj) (key : Word) : Word × SObj :=
  match alookup s.pendingStorage key with
  | some v => (v, s)
  | none =>
    match (if E.enableExpire then queryFromReviveState E s.pendingReviveState key else none) with
    | some revived => (revived, s)
    | none =>
      match alookup s.originStorage key with
      | some v => (v, s)
      | none =>
        if E.destructed then (zeroWord, s)
        else
          let p := snapPhase E s key
          if needLoadFromTrie E p.1 p.2.1 then
            let t := getTrieM E p.2.2.2
            match t.1 with
            | .error e => (zeroWord, setDbError t.2 e)
            | .ok _ =>
              match trieHGet E (t.2.trie.getD []) key with
              | .error e =>
                if E.enableExpire ∧ e = .storageExpired then gcsFinish t.2 key (setBytes32 [])
                else (zeroWord, setDbError t.2 e)
              | .ok val => gcsFinish t.2 key (setBytes32 val)
          else gcsFinish p.2.2.2 key p.2.2.1

/-- stateObject.accessState: in expiry mode, when the current epoch is ahead
of the cached origin epoch of the slot (zero when absent, as for a Go map
read), bump the pending accessed-state counter of the key. -/
def accessState (E : Env) (s : SObj) (key : Word) : SObj :=
  if !E.enableExpire then s
  else if (alookup s.originStorageEpoch key).getD 0 < E.epoch then
    {s with pendingAccessedState :=
      ainsert s.pendingAccessedState key ((alookup s.pendingAccessedState key).getD 0 + 1)}
  else s

/-- stateObject.GetState: a dirty value wins outright; otherwise the
committed value is fetched and, when non-zero, the access is recorded. -/
def GetState (E : Env) (s : SObj) (key : Word) : Word × SObj :=
  match alookup s.dirtyStorage key with
  | some v => (v, s)
  | none =>
    let r := GetCommittedState E s key
    if r.1 ≠ zeroWord then (r.1, accessState E r.2 key) else (r.1, r.2)

/-- stateObject.setState: install the value in dirtyStorage. -/
def setState (s : SObj) (key value : Word) : SObj :=
  {s with dirtyStorage := ainsert s.dirtyStorage key value}

/-- stateObject.SetState: recompute the current value through GetState, stop
if unchanged, otherwise journal the previous value and write the dirty
entry. -/
def SetState (E : Env) (s : SObj) (key value : Word) : SObj :=
  let r := GetState E s key
  if r.1 = value then r.2
  else setState {r.2 with journal := r.2.journal ++ [JEntry.storageChange key r.1]} key value

/-- stateObject.finalise: move every dirty slot into pendingStorage and clear
dirtyStorage.  The prefetch hint hand-off is an external, best-effort
notification and is not modelled. -/
def finalise (s : SObj) (_prefetch : Bool) : SObj :=
  let merged := s.dirtyStorage.foldl (fun p kv => ainsert p kv.1 kv.2) s.pendingStorage
  {s with pendingStorage := merged, dirtyStorage := []}

/-- stateObject.needUpdateTrie. -/
def needUpdateTrie (E : Env) (s : SObj) : Bool :=
  if !E.enableExpire then !s.pendingStorage.isEmpty
  else !s.pendingStorage.isEmpty || !s.pendingReviveState.isEmpty ||
    !s.pendingAccessedState.isEmpty

/-- The working trie of updateTrie: the pending revive trie in expiry mode,
the plain trie otherwise (Go mutates it through the handle pointer). -/
def workGet (E : Env) (s : SObj) : TrieLog :=
  if E.enableExpire then s.pendingReviveTrie.getD [] else s.trie.getD []

def workSet (E : Env) (s : SObj) (h : TrieLog) : SObj :=
  if E.enableExpire then {s with pendingReviveTrie := some h} else {s with trie := some h}

/-- One UpdateStorage or DeleteStorage on the working trie.  Collaborator
write errors are not modelled: the verified statements below never
distinguish them, and Commit failures are modelled separately in commitFn. -/
def writeWork (E : Env) (s : SObj) (key : Word) (v : Option Bytes) : SObj :=
  workSet E s (ainsert (workGet E s) key v)

/-- One iteration of the pendingStorage loop of updateTrie, carrying the
remaining accessed-key set: a no-op change (equal to the cached origin value,
zero when absent) is skipped entirely; a real change updates the origin
cache, drops the key from the accessed set, deletes or updates the trie slot,
records the snapshot encoding (epoch-stamped in expiry mode) in the
mutated-slot table under the key digest, and records the pre-state value in
the origin-diff table the first time the digest is touched. -/
def pendingStep (E : Env) (st : SObj × List Word) (kv : Word × Word) : SObj × List Word :=
  let s := st.1
  let key := kv.1
  let value := kv.2
  let origVal := (alookup s.originStorage key).getD zeroWord
  if value = origVal then st
  else
    let s1 := {s with originStorage := ainsert s.originStorage key value}
    let acc1 := if E.enableExpire then st.2.filter (fun a => a ≠ key) else st.2
    let s2 :=
      if value = zeroWord then
        let sd := writeWork E s1 key none
        {sd with storageDeleted := sd.storageDeleted + 1}
      else
        let su := writeWork E s1 key (some (trimLeftZeroes value))
        {su with storageUpdated := su.storageUpdated + 1}
    let snapshotVal : Option Bytes :=
      if value = zeroWord then none
      else if E.enableExpire then
        some (EncodeValueToRLPBytes (.valueWithEpoch E.epoch (setBytes32 (trimLeftZeroes value))))
      else some (rlpEncodeBytes (trimLeftZeroes value))
    let khash := E.keccak key
    let s3 := {s2 with dbStorages := ainsert s2.dbStorages khash snapshotVal}
    let s4 :=
      if (alookup s3.dbStoragesOrigin khash).isSome then s3
      else
        { s3 with
          dbStoragesOrigin := ainsert s3.dbStoragesOrigin khash
            (if origVal = zeroWord then none
             else some (rlpEncodeBytes (trimLeftZeroes origVal))) }
    (s4, acc1)

/-- One iteration of the accessed-state epoch-refresh loop of updateTrie:
re-read the current value through GetState (a cache hit in all reachable
states), rewrite the slot to the working trie unchanged, and record the
value re-encoded with the current epoch in the mutated-slot table. -/
def accessStep (E : Env) (s : SObj) (key : Word) : SObj :=
  let r := GetState E s key
  let trimmed := trimLeftZeroes r.1
  let s1 := writeWork E r.2 key (some trimmed)
  let s2 := {s1 with storageUpdated := s1.storageUpdated + 1}
  { s2 with
    dbStorages := ainsert s2.dbStorages (E.keccak key)
      (some (EncodeValueToRLPBytes (.valueWithEpoch E.epoch (setBytes32 trimmed)))) }

/-- The loop section of stateObject.updateTrie, run on the state produced by
materializing the working trie: collect the accessed-key set, run the
pending-storage loop and then in expiry mode the epoch-refresh loop over the
still-accessed keys, clear pendingStorage and in expiry mode the revive and
epoch side tables, and in expiry mode re-anchor the live trie to a copy of
the working trie.  Returns the final state and the working trie (Go returns
the handle through which the loop writes went). -/
def updateTrieBody (E : Env) (s : SObj) : SObj × TrieLog :=
  let acc0 := if E.enableExpire then s.pendingAccessedState.map Prod.fst else []
  let p := s.pendingStorage.foldl (pendingStep E) (s, acc0)
  let s1 := if E.enableExpire then p.2.foldl (accessStep E) p.1 else p.1
  let tr := workGet E s1
  let s2 := {s1 with pendingStorage := []}
  let s3 :=
    if E.enableExpire then
      { s2 with
        pendingReviveState := []
        pendingAccessedState := []
        originStorageEpoch := []
        pendingReviveTrie := none
        trie := some tr }
    else s2
  (s3, tr)

/-- stateObject.updateTrie: finalise, stop early (returning the current trie
handle) when nothing needs syncing, materialize the working trie (recording a
failure in the sticky database error), then run updateTrieBody and return the
working trie it wrote to. -/
def updateTrie (E : Env) (s : SObj) : Except GoErr (Option TrieLog) × SObj :=
  let sf := finalise s false
  if !needUpdateTrie E sf then (.ok sf.trie, sf)
  else
    let m := if E.enableExpire then getPendingReviveTrieM E sf else getTrieM E sf
    match m.1 with
    | .error e => (.error e, setDbError m.2 e)
    | .ok _ =>
      let b := updateTrieBody E m.2
      (.ok (some b.2), b.1)

/-- The tail of stateObject.commit once a working trie exists: commit the
trie; on failure return the error with the state untouched; on success store
the new root into data, advance origin to a copy of data, and return the
node diff (modelled as the accumulated write log). -/
def commitFinish (E : Env) (u2 : SObj) (tr : TrieLog) : Except GoErr (Option TrieLog) × SObj :=
  match E.commitFn tr with
  | .error e => (.error e, u2)
  | .ok root =>
    let s1 := {u2 with data := {u2.data with root := root}}
    (.ok (some tr), {s1 with origin := some s1.data})

/-- stateObject.commit: updateTrie first; with no working trie, just advance
origin to a copy of data; otherwise run commitFinish on the working trie. -/
def commit (E : Env) (s : SObj) : Except GoErr (Option TrieLog) × SObj :=
  let u := updateTrie E s
  match u.1 with
  | .error e => (.error e, u.2)
  | .ok none => (.ok none, {u.2 with origin := some u.2.data})
  | .ok (some tr) => commitFinish E u.2 tr

/-- stateObject.setBalance. -/
def setBalance (s : SObj) (amount : Int) : SObj :=
  {s with data := {s.data with balance := amount}}

/-- stateObject.SetBalance: journal the previous balance, then install the
new one. -/
def SetBalance (s : SObj) (amount : Int) : SObj :=
  setBalance {s with journal := s.journal ++ [JEntry.balanceChange s.data.balance]} amount

/-- stateObject.AddBalance: a zero amount only touches an empty account (the
EIP161 empty-account clearing notification); otherwise the sum is installed
through SetBalance.  A zero big.Int has Sign() equal to 0. -/
def AddBalance (E : Env) (s : SObj) (amount : Int) : SObj :=
  if amount = 0 then (if s.empty then touch E s else s)
  else SetBalance s (s.data.balance + amount)

/-- stateObject.SubBalance: as AddBalance without the touch special case. -/
def SubBalance (s : SObj) (amount : Int) : SObj :=
  if amount = 0 then s else SetBalance s (s.data.balance - amount)

/-! Concrete instances used to evaluate the verified statements on closed
inputs. -/

def baseAccount : StateAccount :=
  { nonce := 0, balance := 0, root := zeroWord, codeHash := emptyCodeHash }

/-- A freshly created state object (newObject with a nil account): empty maps,
no trie handle yet. -/
def baseObj : SObj :=
  { data := baseAccount
    origin := none
    trie := none
    pendingReviveTrie := none
    originStorage := []
    pendingStorage := []
    dirtyStorage := []
    pendingReviveState := []
    pendingAccessedState := []
    originStorageEpoch := []
    dirtyCode := false
    selfDestructed := false
    deleted := false
    journal := []
    dbErr := none
    dbStorages := []
    dbStoragesOrigin := []
    storageUpdated := 0
    storageDeleted := 0
    journalDirtyMarked := false }

/-- A minimal environment: no snapshot layer, an empty committed trie that
opens successfully, expiry off, commit succeeding with the zero root. -/
def baseEnv : Env :=
  { enableExpire := false
    epoch := 0
    snap := none
    keccak := fun w => w
    trieGet := fun _ => .ok []
    openTrie := none
    destructed := false
    commitFn := fun _ => .ok zeroWord
    isRipemd := false }

def kOne : Word := setBytes32 [1]

def wSeven : Word := setBytes32 [7]

def envDestructed : Env := { baseEnv with destructed := true }

def envExpire5 : Env := { baseEnv with enableExpire := true, epoch := 5 }

def envCommitFail : Env := { baseEnv with commitFn := fun _ => .error .ioErr }

/-- An object that cached a non-zero read of kOne earlier in the block. -/
def objOriginSeven : SObj := { baseObj with originStorage := [(kOne, wSeven)] }

/-- An object with a dirty write of kOne shadowing stale pending and origin
entries. -/
def objDirtySeven : SObj :=
  { baseObj with
    dirtyStorage := [(kOne, wSeven)]
    pendingStorage := [(kOne, zeroWord)]
    originStorage := [(kOne, zeroWord)] }

/-- An object whose slot kOne was read (and access-tracked) but not written:
the cached value is nonzero and the accessed-state counter is set. -/
def objAccessedSeven : SObj :=
  { baseObj with
    originStorage := [(kOne, wSeven)]
    pendingAccessedState := [(kOne, 1)] }

/-- An object with one real pending write, trie already open. -/
def objPendingSeven : SObj :=
  { baseObj with
    pendingStorage := [(kOne, wSeven)]
    trie := some [] }

/-- A non-empty account (nonzero nonce). -/
def objNonEmpty : SObj := { baseObj with data := { baseAccount with nonce := 1 } }

/-- Decidable equality for Except results, so that closed statements about
the fallible operations can be settled by evaluation. -/
instance {e a : Type} [DecidableEq e] [DecidableEq a] : DecidableEq (Except e a)
  | .ok x, .ok y =>
    if h : x = y then .isTrue (by rw [h]) else .isFalse (fun c => h (Except.ok.inj c))
  | .ok _, .error _ => .isFalse (fun c => Except.noConfusion c)
  | .error _, .ok _ => .isFalse (fun c => Except.noConfusion c)
  | .error x, .error y =>
    if h : x = y then .isTrue (by rw [h]) else .isFalse (fun c => h (Except.error.inj c))

/-- The frame of the read path: t agrees with s on every stateObject and
StateDB field except the caching side state (originStorage, the cached origin
epochs, the pending accessed-state counters), the lazily materialized trie
handle, and the sticky database error.  In particular dirtyStorage,
pendingStorage, pendingReviveState, the journal, the account data and origin,
the pending revive trie, the mutated-slot and origin-diff tables, the
counters and all flags are untouched. -/
def ReadFrame (s t : SObj) : Prop :=
  t = { s with
        originStorage := t.originStorage
        originStorageEpoch := t.originStorageEpoch
        pendingAccessedState := t.pendingAccessedState
        trie := t.trie
        dbErr := t.dbErr }

/-! Association-list lemmas. -/

theorem alookup_ainsert_self {α β : Type} [DecidableEq α] (l : List (α × β)) (k : α) (v : β) :
    alookup (ainsert l k v) k = some v := by
  induction l with
  | nil => simp [ainsert, alookup]
  | cons kv t ih =>
    obtain ⟨a, b⟩ := kv
    by_cases h : a = k
    · subst h
      simp [ainsert, alookup]
    · simp [ainsert, alookup, h, ih]

theorem alookup_ainsert_ne {α β : Type} [DecidableEq α] (l : List (α × β)) (k a : α) (v : β)
    (h : a ≠ k) : alookup (ainsert l k v) a = alookup l a := by
  induction l with
  | nil =>
    simp only [ainsert, alookup]
    rw [if_neg (fun hh => h hh.symm)]
  | cons kv t ih =>
    obtain ⟨c, d⟩ := kv
    simp only [ainsert]
    by_cases hck : c = k
    · subst hck
      rw [if_pos rfl]
      show alookup ((c, v) :: t) a = alookup ((c, d) :: t) a
      simp only [alookup]
      rw [if_neg (fun hh => h hh.symm), if_neg (fun hh => h hh.symm)]
    · rw [if_neg hck]
      simp only [alookup, ih]

theorem alookup_mem_of_nodup {α β : Type} [DecidableEq α] {l : List (α × β)}
    (hn : (l.map Prod.fst).Nodup) {k : α} {b : β} (hm : (k, b) ∈ l) :
    alookup l k = some b := by
  induction l with
  | nil => cases hm
  | cons cd t ih =>
    obtain ⟨c, d⟩ := cd
    simp only [List.map_cons, List.nodup_cons] at hn
    rcases List.mem_cons.mp hm with h1 | h2
    · cases h1
      simp [alookup]
    · have hck : c ≠ k := by
        intro he
        subst he
        exact hn.1 (List.mem_map.mpr ⟨(c, b), h2, rfl⟩)
      simp [alookup, hck, ih hn.2 h2]

theorem foldlInv {α β : Type} (f : β → α → β) (P : β → Prop) (l : List α) (init : β)
    (h0 : P init) (hs : ∀ b a, a ∈ l → P b → P (f b a)) : P (l.foldl f init) := by
  induction l generalizing init with
  | nil => exact h0
  | cons a t ih =>
    exact ih (f init a) (hs init a (List.mem_cons_self a t) h0)
      (fun b x hx hb => hs b x (List.mem_cons_of_mem a hx) hb)

theorem mem_nodup_split {α : Type} {l : List α} {a : α} (hm : a ∈ l) (hn : l.Nodup) :
    ∃ pre post, l = pre ++ a :: post ∧ a ∉ pre ∧ a ∉ post := by
  obtain ⟨pre, post, rfl⟩ := List.append_of_mem hm
  rw [List.nodup_append] at hn
  obtain ⟨h1, h2, hd⟩ := hn
  rw [List.nodup_cons] at h2
  exact ⟨pre, post, rfl, fun hp => hd hp (List.mem_cons_self a post), h2.1⟩

/-! Frame lemmas for the read path. -/

theorem ReadFrame.rfl (s : SObj) : ReadFrame s s := by
  unfold ReadFrame
  rfl

theorem ReadFrame.trans {s t u : SObj} (h1 : ReadFrame s t) (h2 : ReadFrame t u) :
    ReadFrame s u := by
  unfold ReadFrame at h1 h2 ⊢
  calc u = { t with
             originStorage := u.originStorage
             originStorageEpoch := u.originStorageEpoch
             pendingAccessedState := u.pendingAccessedState
             trie := u.trie
             dbErr := u.dbErr } := h2
  _ = _ := by rw [h1]

theorem ReadFrame.dirtyStorage_eq {s t : SObj} (h : ReadFrame s t) :
    t.dirtyStorage = s.dirtyStorage := by rw [h]

theorem ReadFrame.pendingStorage_eq {s t : SObj} (h : ReadFrame s t) :
    t.pendingStorage = s.pendingStorage := by rw [h]

theorem ReadFrame.pendingReviveState_eq {s t : SObj} (h : ReadFrame s t) :
    t.pendingReviveState = s.pendingReviveState := by rw [h]

theorem ReadFrame.journal_eq {s t : SObj} (h : ReadFrame s t) : t.journal = s.journal := by
  rw [h]

theorem ReadFrame.data_eq {s t : SObj} (h : ReadFrame s t) : t.data = s.data := by rw [h]

theorem ReadFrame.origin_eq {s t : SObj} (h : ReadFrame s t) : t.origin = s.origin := by
  rw [h]

theorem ReadFrame.pendingReviveTrie_eq {s t : SObj} (h : ReadFrame s t) :
    t.pendingReviveTrie = s.pendingReviveTrie := by rw [h]

theorem ReadFrame.dbStorages_eq {s t : SObj} (h : ReadFrame s t) :
    t.dbStorages = s.dbStorages := by rw [h]

theorem ReadFrame.dbStoragesOrigin_eq {s t : SObj} (h : ReadFrame s t) :
    t.dbStoragesOrigin = s.dbStoragesOrigin := by rw [h]

theorem snapPhase_frame (E : Env) (s : SObj) (key : Word) :
    (snapPhase E s key).2.2.2 = { s with
      originStorageEpoch := (snapPhase E s key).2.2.2.originStorageEpoch
      dbErr := (snapPhase E s key).2.2.2.dbErr } := by
  simp only [snapPhase, setDbError]
  repeat' split <;> try rfl

theorem getTrieM_frame (E : Env) (s : SObj) :
    (getTrieM E s).2 = { s with trie := (getTrieM E s).2.trie } := by
  simp only [getTrieM]
  repeat' split <;> try rfl

theorem gcs_frame (E : Env) (s : SObj) (key : Word) :
    ReadFrame s (GetCommittedState E s key).2 := by
  unfold ReadFrame
  simp only [GetCommittedState, queryFromReviveState]
  split
  · rfl
  split
  · rfl
  split
  · rfl
  split
  · rfl
  generalize hq : snapPhase E s key = p
  have hf := snapPhase_frame E s key
  rw [hq] at hf
  split
  · have hg := getTrieM_frame E p.2.2.2
    generalize ht : getTrieM E p.2.2.2 = t at hg
    split
    · simp only [setDbError]
      split
      · rw [hg, hf]
      · rw [hg, hf]
    · split
      · split
        · simp only [gcsFinish]
          rw [hg, hf]
        · simp only [setDbError]
          split
          · rw [hg, hf]
          · rw [hg, hf]
      · simp only [gcsFinish]
        rw [hg, hf]
  · simp only [gcsFinish]
    rw [hf]

theorem gcs_pAS (E : Env) (s : SObj) (key : Word) :
    (GetCommittedState E s key).2.pendingAccessedState = s.pendingAccessedState := by
  simp only [GetCommittedState, queryFromReviveState]
  split
  · rfl
  split
  · rfl
  split
  · rfl
  split
  · rfl
  generalize hq : snapPhase E s key = p
  have hf := snapPhase_frame E s key
  rw [hq] at hf
  split
  · have hg := getTrieM_frame E p.2.2.2
    generalize ht : getTrieM E p.2.2.2 = t at hg
    split
    · simp only [setDbError]
      split
      · rw [hg, hf]
      · rw [hg, hf]
    · split
      · split
        · simp only [gcsFinish]
          rw [hg, hf]
        · simp only [setDbError]
          split
          · rw [hg, hf]
          · rw [hg, hf]
      · simp only [gcsFinish]
        rw [hg, hf]
  · simp only [gcsFinish]
    rw [hf]

theorem gcs_origin_or (E : Env) (s : SObj) (key : Word) :
    (GetCommittedState E s key).2.originStorage = s.originStorage ∨
    (GetCommittedState E s key).2.originStorage =
      ainsert s.originStorage key (GetCommittedState E s key).1 := by
  simp only [GetCommittedState, queryFromReviveState]
  split
  · exact Or.inl rfl
  split
  · exact Or.inl rfl
  split
  · exact Or.inl rfl
  split
  · exact Or.inl rfl
  generalize hq : snapPhase E s key = p
  have hf := snapPhase_frame E s key
  rw [hq] at hf
  split
  · have hg := getTrieM_frame E p.2.2.2
    generalize ht : getTrieM E p.2.2.2 = t at hg
    split
    · simp only [setDbError]
      split
      · rw [hg, hf]
        exact Or.inl rfl
      · rw [hg, hf]
        exact Or.inl rfl
    · split
      · split
        · simp only [gcsFinish]
          rw [hg, hf]
          exact Or.inr rfl
        · simp only [setDbError]
          split
          · rw [hg, hf]
            exact Or.inl rfl
          · rw [hg, hf]
            exact Or.inl rfl
      · simp only [gcsFinish]
        rw [hg, hf]
        exact Or.inr rfl
  · simp only [gcsFinish]
    rw [hf]
    exact Or.inr rfl

theorem accessState_frame (E : Env) (s : SObj) (key : Word) :
    ReadFrame s (accessState E s key) := by
  unfold ReadFrame accessState
  repeat' split <;> try rfl

theorem accessState_origin (E : Env) (s : SObj) (key : Word) :
    (accessState E s key).originStorage = s.originStorage := by
  unfold accessState
  split
  · rfl
  · split
    · rfl
    · rfl

theorem getState_frame (E : Env) (s : SObj) (key : Word) :
    ReadFrame s (GetState E s key).2 := by
  simp only [GetState]
  split
  · exact ReadFrame.rfl s
  · split
    · exact (gcs_frame E s key).trans (accessState_frame E (GetCommittedState E s key).2 key)
    · exact gcs_frame E s key

theorem getState_origin_or (E : Env) (s : SObj) (key : Word) :
    (GetState E s key).2.originStorage = s.originStorage ∨
    (GetState E s key).2.originStorage =
      ainsert s.originStorage key (GetState E s key).1 := by
  simp only [GetState]
  split
  · exact Or.inl rfl
  · split
    · rw [accessState_origin]
      exact gcs_origin_or E s key
    · exact gcs_origin_or E s key

/-! Value characterization of cache-hit reads, and small frame lemmas for the
commit path. -/

theorem gcs_cache_hit (E : Env) (s : SObj) (key v : Word)
    (hp : ∀ pv, alookup s.pendingStorage key = some pv → pv = v)
    (hr : alookup s.pendingReviveState (E.keccak key) = none)
    (ho : alookup s.originStorage key = some v) :
    GetCommittedState E s key = (v, s) := by
  unfold GetCommittedState queryFromReviveState
  cases hps : alookup s.pendingStorage key with
  | some pv =>
    simp only [hps]
    rw [hp pv hps]
  | none =>
    cases hE : E.enableExpire with
    | true => simp only [hps, hE, if_true, hr, ho]
    | false => simp only [hps, hE, Bool.false_eq_true, if_false, ho]

theorem getState_cache_hit (E : Env) (s : SObj) (key v : Word)
    (hd : alookup s.dirtyStorage key = none)
    (hp : ∀ pv, alookup s.pendingStorage key = some pv → pv = v)
    (hr : alookup s.pendingReviveState (E.keccak key) = none)
    (ho : alookup s.originStorage key = some v) :
    GetState E s key = (v, if v ≠ zeroWord then accessState E s key else s) := by
  have hg := gcs_cache_hit E s key v hp hr ho
  simp only [GetState, hd, hg]
  split <;> rfl

theorem accessState_bump (E : Env) (s : SObj) (key : Word) (hexp : E.enableExpire = true)
    (heph : (alookup s.originStorageEpoch key).getD 0 < E.epoch) :
    accessState E s key = { s with
      pendingAccessedState :=
        ainsert s.pendingAccessedState key ((alookup s.pendingAccessedState key).getD 0 + 1) } := by
  unfold accessState
  rw [hexp]
  simp [heph]

theorem setDbError_eta (s : SObj) (e : GoErr) :
    setDbError s e = { s with dbErr := (setDbError s e).dbErr } := by
  unfold setDbError
  split <;> rfl

theorem getPRT_frame (E : Env) (s : SObj) :
    (getPendingReviveTrieM E s).2 = { s with
      trie := (getPendingReviveTrieM E s).2.trie
      pendingReviveTrie := (getPendingReviveTrieM E s).2.pendingReviveTrie } := by
  simp only [getPendingReviveTrieM, getTrieM]
  repeat' split <;> try rfl

theorem pendingStep_data_origin (E : Env) (st : SObj × List Word) (kv : Word × Word) :
    (pendingStep E st kv).1.data = st.1.data ∧ (pendingStep E st kv).1.origin = st.1.origin := by
  simp only [pendingStep, writeWork, workSet, workGet]
  repeat' split
  all_goals exact ⟨rfl, rfl⟩

theorem accessStep_data_origin (E : Env) (s : SObj) (key : Word) :
    (accessStep E s key).data = s.data ∧ (accessStep E s key).origin = s.origin := by
  have hf := getState_frame E s key
  simp only [accessStep, writeWork, workSet, workGet]
  repeat' split
  all_goals exact ⟨hf.data_eq, hf.origin_eq⟩

theorem updateTrieBody_data_origin (E : Env) (s : SObj) :
    (updateTrieBody E s).1.data = s.data ∧ (updateTrieBody E s).1.origin = s.origin := by
  have hstep : ∀ (b : SObj × List Word) (a : Word × Word), a ∈ s.pendingStorage →
      (b.1.data = s.data ∧ b.1.origin = s.origin) →
      ((pendingStep E b a).1.data = s.data ∧ (pendingStep E b a).1.origin = s.origin) := by
    intro b a _ hb
    obtain ⟨h1, h2⟩ := pendingStep_data_origin E b a
    exact ⟨h1.trans hb.1, h2.trans hb.2⟩
  have hP := foldlInv (pendingStep E) (fun x => x.1.data = s.data ∧ x.1.origin = s.origin)
    s.pendingStorage (s, if E.enableExpire then s.pendingAccessedState.map Prod.fst else [])
    ⟨rfl, rfl⟩ hstep
  set p := s.pendingStorage.foldl (pendingStep E)
    (s, if E.enableExpire then s.pendingAccessedState.map Prod.fst else []) with hpdef
  have hstepA : ∀ (t : SObj) (a : Word), a ∈ p.2 →
      (t.data = s.data ∧ t.origin = s.origin) →
      ((accessStep E t a).data = s.data ∧ (accessStep E t a).origin = s.origin) := by
    intro t a _ hb
    obtain ⟨h1, h2⟩ := accessStep_data_origin E t a
    exact ⟨h1.trans hb.1, h2.trans hb.2⟩
  have hA := foldlInv (accessStep E) (fun t => t.data = s.data ∧ t.origin = s.origin)
    p.2 p.1 hP hstepA
  simp only [updateTrieBody]
  rw [← hpdef]
  split
  · exact hA
  · exact hP

theorem updateTrie_data_origin (E : Env) (s : SObj) :
    (updateTrie E s).2.data = s.data ∧ (updateTrie E s).2.origin = s.origin := by
  simp only [updateTrie]
  split
  · exact ⟨rfl, rfl⟩
  · split
    · rw [setDbError_eta]
      constructor
      · show (if E.enableExpire then getPendingReviveTrieM E (finalise s false)
            else getTrieM E (finalise s false)).2.data = s.data
        split
        · rw [getPRT_frame]
          rfl
        · rw [getTrieM_frame]
          rfl
      · show (if E.enableExpire then getPendingReviveTrieM E (finalise s false)
            else getTrieM E (finalise s false)).2.origin = s.origin
        split
        · rw [getPRT_frame]
          rfl
        · rw [getTrieM_frame]
          rfl
    · have hb := updateTrieBody_data_origin E
        (if E.enableExpire then getPendingReviveTrieM E (finalise s false)
         else getTrieM E (finalise s false)).2
      have hm : (if E.enableExpire then getPendingReviveTrieM E (finalise s false)
          else getTrieM E (finalise s false)).2.data = s.data ∧
          (if E.enableExpire then getPendingReviveTrieM E (finalise s false)
          else getTrieM E (finalise s false)).2.origin = s.origin := by
        constructor
        · split
          · rw [getPRT_frame]
            rfl
          · rw [getTrieM_frame]
            rfl
        · split
          · rw [getPRT_frame]
            rfl
          · rw [getTrieM_frame]
            rfl
      exact ⟨hb.1.trans hm.1, hb.2.trans hm.2⟩

/-! Codec lemmas: the byte-level helpers, then the round-trip facts. -/

theorem headD_append_of_ne_nil (l r : Bytes) (d : Nat) (h : l ≠ []) :
    (l ++ r).headD d = l.headD d := by
  cases l with
  | nil => exact absurd rfl h
  | cons a t => rfl

theorem take_length_append (l r : Bytes) : (l ++ r).take l.length = l := by
  induction l with
  | nil => rfl
  | cons a t ih =>
    show a :: ((t ++ r).take t.length) = a :: t
    rw [ih]

theorem drop_length_append (l r : Bytes) : (l ++ r).drop l.length = r := by
  induction l with
  | nil => rfl
  | cons a t ih => exact ih

theorem beBytes_zero : beBytes 0 = [] := by
  unfold beBytes
  rfl

theorem parseBE_append_singleton (l : Bytes) (b : Nat) :
    parseBE (l ++ [b]) = parseBE l * 256 + b := by
  unfold parseBE
  rw [List.foldl_append]
  rfl

theorem parseBE_beBytes (n : Nat) : parseBE (beBytes n) = n := by
  induction n using Nat.strong_induction_on with
  | _ n ih =>
    unfold beBytes
    split
    · subst ‹n = 0›
      rfl
    · rw [parseBE_append_singleton,
        ih (n / 256) (Nat.div_lt_self (Nat.pos_of_ne_zero ‹n ≠ 0›) (by omega))]
      omega

theorem beBytes_ne_nil {n : Nat} (h : n ≠ 0) : beBytes n ≠ [] := by
  unfold beBytes
  rw [dif_neg h]
  simp

theorem beBytes_head_ne_zero {n : Nat} (h : n ≠ 0) : (beBytes n).headD 0 ≠ 0 := by
  induction n using Nat.strong_induction_on with
  | _ n ih =>
    unfold beBytes
    rw [dif_neg h]
    by_cases h2 : n / 256 = 0
    · rw [h2, beBytes_zero, List.nil_append]
      show n % 256 ≠ 0
      omega
    · rw [headD_append_of_ne_nil _ _ _ (beBytes_ne_nil h2)]
      exact ih (n / 256) (Nat.div_lt_self (Nat.pos_of_ne_zero h) (by omega)) h2

theorem beBytes_length_le {n k : Nat} (h : n < 256 ^ k) : (beBytes n).length ≤ k := by
  induction k generalizing n with
  | zero =>
    have hz : n = 0 := by
      simp only [pow_zero] at h
      omega
    subst hz
    rw [beBytes_zero]
    exact Nat.le_refl 0
  | succ k ih =>
    by_cases h0 : n = 0
    · subst h0
      rw [beBytes_zero]
      exact Nat.zero_le _
    · unfold beBytes
      rw [dif_neg h0, List.length_append]
      have hd : n / 256 < 256 ^ k := by
        rw [Nat.div_lt_iff_lt_mul (by omega : 0 < 256)]
        calc n < 256 ^ (k + 1) := h
        _ = 256 ^ k * 256 := by rw [pow_succ]
      have := ih hd
      simp only [List.length_cons, List.length_nil]
      omega

theorem beBytes_length_two_le {n : Nat} (h : 256 ≤ n) : 2 ≤ (beBytes n).length := by
  unfold beBytes
  rw [dif_neg (by omega : ¬n = 0), List.length_append]
  have h2 : n / 256 ≠ 0 := by
    intro hc
    omega
  have := beBytes_ne_nil h2
  have hpos : 0 < (beBytes (n / 256)).length := List.length_pos.mpr this
  simp only [List.length_cons, List.length_nil]
  omega

theorem beBytes_single {n : Nat} (h1 : n ≠ 0) (h2 : n < 256) : beBytes n = [n] := by
  unfold beBytes
  rw [dif_neg h1]
  have hz : n / 256 = 0 := by omega
  rw [hz, beBytes_zero, List.nil_append, Nat.mod_eq_of_lt h2]

theorem rlpSplit_byte (b : Nat) (r : Bytes) (h : b ≤ 0x7f) :
    rlpSplit (b :: r) = .ok (.byteKind, [b], r) := by
  simp only [rlpSplit]
  rw [if_pos h]

theorem rlpSplit_short_string (c r : Bytes) (hlen : c.length ≤ 55)
    (hone : c.length = 1 → 0x80 ≤ c.headD 0) :
    rlpSplit ((0x80 + c.length) :: (c ++ r)) = .ok (.stringKind, c, r) := by
  simp only [rlpSplit]
  rw [if_neg (by omega : ¬(0x80 + c.length ≤ 0x7f)),
    if_pos (by omega : 0x80 + c.length ≤ 0xb7)]
  have hsize : 0x80 + c.length - 0x80 = c.length := by omega
  rw [hsize]
  have hc1 : ¬(c.length = 1 ∧ (c ++ r).headD 0 < 0x80) := by
    rintro ⟨ha, hb⟩
    have hcne : c ≠ [] := by
      intro hnil
      rw [hnil] at ha
      simp at ha
    rw [headD_append_of_ne_nil c r 0 hcne] at hb
    have := hone ha
    omega
  rw [if_neg hc1]
  have hc2 : ¬((c ++ r).length < c.length) := by
    rw [List.length_append]
    omega
  rw [if_neg hc2, take_length_append, drop_length_append]

theorem rlpSplit_short_list (p r : Bytes) (hlen : p.length ≤ 55) :
    rlpSplit ((0xc0 + p.length) :: (p ++ r)) = .ok (.listKind, p, r) := by
  simp only [rlpSplit]
  rw [if_neg (by omega : ¬(0xc0 + p.length ≤ 0x7f)),
    if_neg (by omega : ¬(0xc0 + p.length ≤ 0xb7)),
    if_neg (by omega : ¬(0xc0 + p.length ≤ 0xbf)),
    if_pos (by omega : 0xc0 + p.length ≤ 0xf7)]
  have hsize : 0xc0 + p.length - 0xc0 = p.length := by omega
  rw [hsize]
  have hc2 : ¬((p ++ r).length < p.length) := by
    rw [List.length_append]
    omega
  rw [if_neg hc2, take_length_append, drop_length_append]

theorem rlpSplit_encodeBytes (c r : Bytes) (hlen : c.length ≤ 55)
    (hone : c.length = 1 → 0x80 ≤ c.headD 0) :
    rlpSplit (rlpEncodeBytes c ++ r) = .ok (.stringKind, c, r) := by
  unfold rlpEncodeBytes
  have hng : ¬(c.length = 1 ∧ c.headD 0 ≤ 0x7f) := by
    rintro ⟨ha, hb⟩
    have := hone ha
    omega
  rw [if_neg hng, if_pos hlen, List.cons_append]
  exact rlpSplit_short_string c r hlen hone

theorem encodeUint_length_le {e : Nat} (he : e < 2 ^ 64) : (encodeUintRLP e).length ≤ 9 := by
  unfold encodeUintRLP
  by_cases h0 : e = 0
  · rw [if_pos h0]
    simp
  · rw [if_neg h0]
    by_cases h1 : e ≤ 0x7f
    · rw [if_pos h1]
      simp
    · rw [if_neg h1]
      have : (beBytes e).length ≤ 8 := by
        apply beBytes_length_le
        have : (256 : Nat) ^ 8 = 2 ^ 64 := by norm_num
        omega
      simp only [List.length_cons]
      omega

theorem decodeUint_encodeUint (e : Nat) (r : Bytes) (he : e < 2 ^ 64) :
    decodeUintStream (encodeUintRLP e ++ r) = .ok (e, r) := by
  unfold encodeUintRLP
  by_cases h0 : e = 0
  · subst h0
    rw [if_pos rfl]
    unfold decodeUintStream
    rw [show ([0x80] ++ r : Bytes) = (0x80 + ([] : Bytes).length) :: (([] : Bytes) ++ r) by rfl]
    rw [rlpSplit_short_string [] r (by simp) (by simp)]
    norm_num [parseBE]
  · by_cases h1 : e ≤ 0x7f
    · rw [if_neg h0, if_pos h1]
      unfold decodeUintStream
      rw [show ([e] ++ r : Bytes) = e :: r by rfl]
      rw [rlpSplit_byte e r h1]
      simp [h0]
    · rw [if_neg h0, if_neg h1]
      unfold decodeUintStream
      rw [List.cons_append]
      have hlen8 : (beBytes e).length ≤ 8 := by
        apply beBytes_length_le
        have : (256 : Nat) ^ 8 = 2 ^ 64 := by norm_num
        omega
      have hone : (beBytes e).length = 1 → 0x80 ≤ (beBytes e).headD 0 := by
        intro hl
        have hlt : e < 256 := by
          by_contra hge
          have := beBytes_length_two_le (by omega : 256 ≤ e)
          omega
        rw [beBytes_single h0 hlt]
        show 0x80 ≤ e
        omega
      rw [rlpSplit_short_string (beBytes e) r (by omega) hone]
      have hh : (beBytes e).headD 1 ≠ 0 := by
        cases hb : beBytes e with
        | nil => exact absurd hb (beBytes_ne_nil h0)
        | cons a t =>
          have := beBytes_head_ne_zero h0
          rw [hb] at this
          simpa using this
      simp only [if_neg (by omega : ¬(8 < (beBytes e).length)), if_neg hh]
      rw [parseBE_beBytes]

theorem decodeHash32_encode (h : Word) (r : Bytes) (hl : h.length = 32) :
    decodeHash32 (rlpEncodeBytes h ++ r) = .ok (h, r) := by
  unfold decodeHash32
  rw [rlpSplit_encodeBytes h r (by omega) (by omega)]
  simp [hl]

theorem decodeEpochStruct_steps (b content r1 : Bytes) (e : Nat) (h : Word)
    (h1 : rlpSplit b = .ok (.listKind, content, []))
    (h2 : decodeUintStream content = .ok (e, r1))
    (h3 : decodeHash32 r1 = .ok (h, [])) :
    decodeEpochStructRLP b = .ok (e, h) := by
  unfold decodeEpochStructRLP
  rw [h1]
  simp [h2, h3]

theorem decodeEpochStruct_encode (e : Nat) (h : Word) (he : e < 2 ^ 64) (hl : h.length = 32) :
    decodeEpochStructRLP (encodeEpochStructRLP e h) = .ok (e, h) := by
  have hu := encodeUint_length_le he
  have henc : (rlpEncodeBytes h).length = 33 := by
    unfold rlpEncodeBytes
    rw [if_neg (by omega), if_pos (by omega)]
    simp [hl]
  have hplen : (encodeUintRLP e ++ rlpEncodeBytes h).length ≤ 55 := by
    rw [List.length_append]
    omega
  have h1 : rlpSplit (encodeEpochStructRLP e h) =
      .ok (.listKind, encodeUintRLP e ++ rlpEncodeBytes h, []) := by
    unfold encodeEpochStructRLP rlpEncodeList
    rw [if_pos hplen]
    rw [show ((0xc0 + (encodeUintRLP e ++ rlpEncodeBytes h).length) ::
        (encodeUintRLP e ++ rlpEncodeBytes h) : Bytes) =
        (0xc0 + (encodeUintRLP e ++ rlpEncodeBytes h).length) ::
        ((encodeUintRLP e ++ rlpEncodeBytes h) ++ []) by rw [List.append_nil]]
    exact rlpSplit_short_list _ [] hplen
  have h2 : decodeUintStream (encodeUintRLP e ++ rlpEncodeBytes h) =
      .ok (e, rlpEncodeBytes h) := decodeUint_encodeUint e _ he
  have h3 : decodeHash32 (rlpEncodeBytes h) = .ok (h, []) := by
    rw [show (rlpEncodeBytes h : Bytes) = rlpEncodeBytes h ++ [] from (List.append_nil _).symm]
    exact decodeHash32_encode h [] hl
  exact decodeEpochStruct_steps _ _ _ e h h1 h2 h3

/-! The claims. -/

/-- C1, counterexample: the codec round trip fails as stated on a one-byte
RawValue whose content byte is 1 (built via the raw path): it encodes to the
single byte 0x01, which the decoder necessarily reads as a ValueWithEpoch tag
and rejects, instead of returning the RawValue. -/
theorem snapValue_roundtrip_counterexample :
    EncodeValueToRLPBytes (.rawValue [1]) = [1] ∧
    DecodeValueFromRLPBytes [1] = .err .rlpErr ∧
    DecodeValueFromRLPBytes (EncodeValueToRLPBytes (.rawValue [1])) ≠
      .ok (.rawValue [1]) := by decide

/-- C1 (amended): for every SnapValue satisfying the codec invariants — a
RawValue of at most 32 bytes that is not a single byte below 0x80, or an
epoch variant with a 64-bit epoch and a 32-byte hash — decoding the encoding
returns the same value with no error.  In particular every RawValue of two or
more bytes whose first content byte is 0, 1 or 2 round-trips; only the
one-byte RawValues below 0x80 (which collide with the type tags) are
excluded, as the counterexample forces. -/
theorem snapValue_roundtrip (v : SnapValue) (hwf : SnapValueWF v) :
    DecodeValueFromRLPBytes (EncodeValueToRLPBytes v) = .ok v := by
  cases v with
  | rawValue r =>
    obtain ⟨hlen, hnot⟩ := hwf
    have hone : r.length = 1 → 0x80 ≤ r.headD 0 := by
      intro h1
      by_contra hles
      exact hnot ⟨h1, by omega⟩
    show DecodeValueFromRLPBytes (rlpEncodeBytes r) = .ok (.rawValue r)
    have henc : rlpEncodeBytes r = (0x80 + r.length) :: r := by
      unfold rlpEncodeBytes
      rw [if_neg hnot, if_pos (by omega)]
    unfold DecodeValueFromRLPBytes
    rw [henc]
    have hcond : 0 < (((0x80 + r.length) :: r : Bytes)).length ∧
        0x7f < (((0x80 + r.length) :: r : Bytes)).headD 0 := by
      constructor
      · simp
      · simp only [List.headD_cons]
        omega
    rw [if_pos hcond]
    rw [show ((0x80 + r.length) :: r : Bytes) = (0x80 + r.length) :: (r ++ [])
      from by rw [List.append_nil]]
    rw [rlpSplit_short_string r [] (by omega) hone]
  | valueWithEpoch e h =>
    obtain ⟨he, hl⟩ := hwf
    show DecodeValueFromRLPBytes (encodeValTyped (.valueWithEpoch e h)) = _
    have henc : encodeValTyped (.valueWithEpoch e h) = 1 :: encodeEpochStructRLP e h := rfl
    unfold DecodeValueFromRLPBytes
    rw [henc]
    rw [if_neg (by simp)]
    simp [decodeValTyped, decodeEpochStruct_encode e h he hl]
  | shrinkNodeWithEpoch e h =>
    obtain ⟨he, hl⟩ := hwf
    show DecodeValueFromRLPBytes (encodeValTyped (.shrinkNodeWithEpoch e h)) = _
    have henc : encodeValTyped (.shrinkNodeWithEpoch e h) = 2 :: encodeEpochStructRLP e h := rfl
    unfold DecodeValueFromRLPBytes
    rw [henc]
    rw [if_neg (by simp)]
    simp [decodeValTyped, decodeEpochStruct_encode e h he hl]

/-- Witness for C1: concrete round trips through the theorem — a raw value
with first content byte 0, one with first content byte 1, one with first
content byte 2, and both epoch-tagged variants. -/
theorem snapValue_roundtrip_witness :
    SnapValueWF (.rawValue [0, 5]) ∧
    DecodeValueFromRLPBytes (EncodeValueToRLPBytes (.rawValue [0, 5])) = .ok (.rawValue [0, 5]) ∧
    DecodeValueFromRLPBytes (EncodeValueToRLPBytes (.rawValue [1, 200])) = .ok (.rawValue [1, 200]) ∧
    DecodeValueFromRLPBytes (EncodeValueToRLPBytes (.rawValue [2, 9, 9])) = .ok (.rawValue [2, 9, 9]) ∧
    DecodeValueFromRLPBytes (EncodeValueToRLPBytes (.valueWithEpoch 5 wSeven)) = .ok (.valueWithEpoch 5 wSeven) ∧
    DecodeValueFromRLPBytes (EncodeValueToRLPBytes (.shrinkNodeWithEpoch 300 kOne)) = .ok (.shrinkNodeWithEpoch 300 kOne) :=
  ⟨⟨by decide, by decide⟩,
   snapValue_roundtrip _ ⟨by decide, by decide⟩,
   snapValue_roundtrip _ ⟨by decide, by decide⟩,
   snapValue_roundtrip _ ⟨by decide, by decide⟩,
   snapValue_roundtrip _ ⟨by decide, by decide⟩,
   snapValue_roundtrip _ ⟨by decide, by decide⟩⟩

/-- C6: decoding the empty byte slice does not return an error: both
DecodeValueFromRLPBytes and GetValueTypeFromRLPBytes index b[0] without a
length guard and crash (a Go index-out-of-range panic) on empty input,
contradicting the requirement that the input be rejected as malformed. -/
theorem decode_empty_crashes :
    DecodeValueFromRLPBytes [] = .crash ∧ GetValueTypeFromRLPBytes [] = none := by decide

/-- C3: needLoadFromTrie — with no snapshot layer it is always true; with a
snapshot and expiry off it is true exactly on a snapshot error; with a
snapshot and expiry on it is true exactly when there was a snapshot error or
the snapshot produced no bytes. -/
theorem needLoadFromTrie_spec (E : Env) (enc : Bytes) (err : Option GoErr) :
    (E.snap = none → needLoadFromTrie E enc err = true) ∧
    (E.snap ≠ none → E.enableExpire = false →
      (needLoadFromTrie E enc err = true ↔ err ≠ none)) ∧
    (E.snap ≠ none → E.enableExpire = true →
      (needLoadFromTrie E enc err = true ↔ (err ≠ none ∨ enc = []))) := by
  refine ⟨?_, ?_, ?_⟩
  · intro h
    simp [needLoadFromTrie, h]
  · intro h1 h2
    cases hs : E.snap with
    | none => exact absurd hs h1
    | some f =>
      simp only [needLoadFromTrie, hs, h2]
      cases err <;> simp
  · intro h1 h2
    cases hs : E.snap with
    | none => exact absurd hs h1
    | some f =>
      simp only [needLoadFromTrie, hs, h2]
      cases err <;> cases enc <;> simp

/-- Witness for C3: the three cases of the theorem evaluated concretely — no
snapshot layer; a snapshot with expiry off and a snapshot error; a snapshot
with expiry on and empty snapshot bytes. -/
theorem needLoadFromTrie_spec_witness :
    needLoadFromTrie baseEnv [] none = true ∧
    needLoadFromTrie { baseEnv with snap := some (fun _ => .ok []) } [5] (some .ioErr) = true ∧
    needLoadFromTrie { baseEnv with snap := some (fun _ => .ok []), enableExpire := true }
      [] none = true := by
  refine ⟨(needLoadFromTrie_spec baseEnv [] none).1 rfl, ?_, ?_⟩
  · exact ((needLoadFromTrie_spec { baseEnv with snap := some (fun _ => .ok []) } [5]
      (some .ioErr)).2.1 (Option.some_ne_none _) rfl).mpr (by simp)
  · exact ((needLoadFromTrie_spec
      { baseEnv with snap := some (fun _ => .ok []), enableExpire := true } [] none).2.2
      (Option.some_ne_none _) rfl).mpr (Or.inr rfl)

/-- C4: a key present in dirtyStorage is answered from it alone: the result
is the dirty value, the state is returned unchanged (no cache fill, no access
tracking), and the result does not depend on the environment, hence on the
snapshot, trie, or any other map — the latest uncommitted write wins. -/
theorem getState_dirty_priority (E : Env) (s : SObj) (key v : Word)
    (h : alookup s.dirtyStorage key = some v) :
    GetState E s key = (v, s) := by
  simp only [GetState, h]

/-- Witness for C4: the dirty value of kOne wins over the stale zero entries
held by pendingStorage and originStorage. -/
theorem getState_dirty_priority_witness :
    alookup objDirtySeven.dirtyStorage kOne = some wSeven ∧
    GetState baseEnv objDirtySeven kOne = (wSeven, objDirtySeven) ∧
    alookup objDirtySeven.pendingStorage kOne = some zeroWord :=
  ⟨by decide, getState_dirty_priority baseEnv objDirtySeven kOne wSeven (by decide), by decide⟩

/-- C2, counterexample: an account destructed this block whose key was cached
in originStorage by an earlier read answers the cached non-zero value, not
the zero hash, although the key is absent from pendingStorage. -/
theorem gcs_destructed_counterexample :
    envDestructed.destructed = true ∧
    alookup objOriginSeven.pendingStorage kOne = none ∧
    wSeven ≠ zeroWord ∧
    GetCommittedState envDestructed objOriginSeven kOne = (wSeven, objOriginSeven) := by decide

/-- C2 (amended): for an account destructed in this block, GetCommittedState
returns the zero hash for every key that is absent from pendingStorage, from
pendingReviveState (under its digest, in expiry mode), and from the
originStorage cache — regardless of what the snapshot or trie collaborators
hold, which the quantification over the environment expresses; the state is
returned unchanged. -/
theorem gcs_destructed_zero (E : Env) (s : SObj) (key : Word)
    (hdes : E.destructed = true)
    (hp : alookup s.pendingStorage key = none)
    (hr : E.enableExpire = true → alookup s.pendingReviveState (E.keccak key) = none)
    (ho : alookup s.originStorage key = none) :
    GetCommittedState E s key = (zeroWord, s) := by
  unfold GetCommittedState queryFromReviveState
  simp only [hp]
  have hrv : (if E.enableExpire = true then alookup s.pendingReviveState (E.keccak key)
      else none) = none := by
    split
    · exact hr (by assumption)
    · rfl
  simp only [hrv, ho, hdes, if_true]

/-- Witness for C2: a destructed account with empty caches answers zero on a
fresh key even though the committed trie of the environment would answer a
non-zero value. -/
theorem gcs_destructed_zero_witness :
    GetCommittedState { envDestructed with trieGet := fun _ => .ok [7] } baseObj kOne =
      (zeroWord, baseObj) :=
  gcs_destructed_zero { envDestructed with trieGet := fun _ => .ok [7] } baseObj kOne
    (by decide) (by decide) (by decide) (by decide)

/-- C7, counterexample: SetState with the current value is not free of side
effects on the object: the embedded GetState caches the resolved value into
originStorage (and lazily opens the trie handle), so object state changes
even though no undo record is appended and dirtyStorage is untouched. -/
theorem setState_noop_counterexample :
    (GetState baseEnv baseObj kOne).1 = zeroWord ∧
    (SetState baseEnv baseObj kOne zeroWord).originStorage ≠ baseObj.originStorage := by decide

/-- C7 (amended): when the value passed to SetState equals the current
GetState value, no undo record is appended and dirtyStorage and
pendingStorage are unchanged; only the read-path caches (originStorage,
originStorageEpoch, pendingAccessedState), the lazily opened trie handle and
the sticky database error can differ, which is the read frame of the embedded
GetState. -/
theorem setState_noop (E : Env) (s : SObj) (key v : Word)
    (h : (GetState E s key).1 = v) :
    (SetState E s key v).journal = s.journal ∧
    (SetState E s key v).dirtyStorage = s.dirtyStorage ∧
    (SetState E s key v).pendingStorage = s.pendingStorage ∧
    ReadFrame s (SetState E s key v) := by
  have hf := getState_frame E s key
  simp only [SetState]
  rw [if_pos h]
  exact ⟨hf.journal_eq, hf.dirtyStorage_eq, hf.pendingStorage_eq, hf⟩

/-- Witness for C7: writing the current (zero) value of a fresh key appends
no undo record and leaves dirtyStorage and pendingStorage empty. -/
theorem setState_noop_witness :
    (GetState baseEnv baseObj kOne).1 = zeroWord ∧
    (SetState baseEnv baseObj kOne zeroWord).journal = baseObj.journal ∧
    (SetState baseEnv baseObj kOne zeroWord).dirtyStorage = baseObj.dirtyStorage :=
  ⟨by decide,
   (setState_noop baseEnv baseObj kOne zeroWord (by decide)).1,
   (setState_noop baseEnv baseObj kOne zeroWord (by decide)).2.1⟩

/-- C8: AddBalance with amount 0 leaves the balance (indeed all account data)
unchanged and appends no balanceChange undo record — it only appends the
empty-account touch notification, exactly when the account is empty;
AddBalance with a non-zero amount goes through SetBalance, which first
appends a balanceChange undo record holding the previous balance and then
installs the sum. -/
theorem addBalance_spec :
    (∀ (E : Env) (s : SObj),
      (AddBalance E s 0).data = s.data ∧
      (AddBalance E s 0).journal =
        s.journal ++ (if s.empty then [JEntry.touchChange] else [])) ∧
    (∀ (E : Env) (s : SObj) (a : Int), a ≠ 0 →
      AddBalance E s a = SetBalance s (s.data.balance + a) ∧
      (AddBalance E s a).journal = s.journal ++ [JEntry.balanceChange s.data.balance] ∧
      (AddBalance E s a).data.balance = s.data.balance + a) := by
  constructor
  · intro E s
    unfold AddBalance touch
    rw [if_pos rfl]
    split
    · split
      · exact ⟨rfl, rfl⟩
      · exact ⟨rfl, rfl⟩
    · simp
  · intro E s a ha
    unfold AddBalance
    rw [if_neg ha]
    exact ⟨rfl, rfl, rfl⟩

/-- Witness for C8: on the empty base account a zero AddBalance appends only
the touch record; on a non-empty account it appends nothing; a non-zero
AddBalance records the previous balance and adds the amount. -/
theorem addBalance_spec_witness :
    (AddBalance baseEnv baseObj 0).journal = [JEntry.touchChange] ∧
    (AddBalance baseEnv objNonEmpty 0).journal = [] ∧
    (AddBalance baseEnv baseObj 3).journal = [JEntry.balanceChange 0] ∧
    (AddBalance baseEnv baseObj 3).data.balance = 3 := by
  have h1 := (addBalance_spec.1 baseEnv baseObj).2
  have h2 := (addBalance_spec.1 baseEnv objNonEmpty).2
  have h3 := (addBalance_spec.2 baseEnv baseObj 3 (by decide)).2
  refine ⟨?_, ?_, ?_, ?_⟩
  · rw [h1]
    decide
  · rw [h2]
    decide
  · rw [h3.1]
    decide
  · rw [h3.2]
    decide

/-- C9: whenever commit reports an error — in particular when the Commit call
of the trie collaborator fails after a successful updateTrie — the account
record and the origin snapshot are exactly as before the call: data keeps its
root and origin is not advanced; origin is advanced only on the success
paths. -/
theorem commit_error_atomic (E : Env) (s : SObj) (e : GoErr)
    (h : (commit E s).1 = .error e) :
    (commit E s).2.data = s.data ∧ (commit E s).2.origin = s.origin := by
  have hu := updateTrie_data_origin E s
  simp only [commit] at h ⊢
  generalize hgen : updateTrie E s = u at h hu ⊢
  obtain ⟨u1, u2⟩ := u
  cases u1 with
  | error e2 => exact hu
  | ok o =>
    cases o with
    | none =>
      exact Except.noConfusion
        (show (Except.ok (none : Option TrieLog)) = Except.error e from h)
    | some tr =>
      have h2 : (commitFinish E u2 tr).1 = Except.error e := h
      show (commitFinish E u2 tr).2.data = s.data ∧ (commitFinish E u2 tr).2.origin = s.origin
      unfold commitFinish at h2 ⊢
      cases hc : E.commitFn tr with
      | error e2 => exact hu
      | ok root =>
        rw [hc] at h2
        exact Except.noConfusion
          (show (Except.ok (some tr)) = Except.error e from h2)

/-- Witness for C9: a pending write makes updateTrie produce a working trie,
the Commit collaborator fails, and commit reports the failure with data and
origin untouched. -/
theorem commit_error_atomic_witness :
    (commit envCommitFail objPendingSeven).1 = .error .ioErr ∧
    (commit envCommitFail objPendingSeven).2.data = objPendingSeven.data ∧
    (commit envCommitFail objPendingSeven).2.origin = objPendingSeven.origin :=
  ⟨by decide,
   (commit_error_atomic envCommitFail objPendingSeven .ioErr (by decide)).1,
   (commit_error_atomic envCommitFail objPendingSeven .ioErr (by decide)).2⟩

/-- C10, counterexample: a read is not confined to the three caching maps: on
a committed-state miss it lazily opens the storage trie handle, mutating the
trie field of the object. -/
theorem reads_materialize_trie_counterexample :
    baseObj.trie = none ∧ (GetCommittedState baseEnv baseObj kOne).2.trie = some [] := by decide

/-- C10 (amended): GetState and GetCommittedState never add to, remove from,
or modify dirtyStorage or pendingStorage — nor the revive state, the journal,
the account data and origin, the pending revive trie, the mutated-slot and
origin-diff tables, the counters, or any flag: per ReadFrame the result state
can differ only in originStorage, originStorageEpoch, pendingAccessedState,
the lazily opened trie handle, and the sticky database error; moreover
GetCommittedState never touches pendingAccessedState either. -/
theorem reads_never_write (E : Env) (s : SObj) (key : Word) :
    ReadFrame s (GetState E s key).2 ∧ ReadFrame s (GetCommittedState E s key).2 ∧
    (GetCommittedState E s key).2.pendingAccessedState = s.pendingAccessedState :=
  ⟨getState_frame E s key, gcs_frame E s key, gcs_pAS E s key⟩

/-! Lemmas for the epoch-refresh loop of updateTrie. -/

theorem pendingStep_frame (E : Env) (st : SObj × List Word) (kv : Word × Word) :
    (pendingStep E st kv).1 = { st.1 with
      originStorage := (pendingStep E st kv).1.originStorage
      trie := (pendingStep E st kv).1.trie
      pendingReviveTrie := (pendingStep E st kv).1.pendingReviveTrie
      dbStorages := (pendingStep E st kv).1.dbStorages
      dbStoragesOrigin := (pendingStep E st kv).1.dbStoragesOrigin
      storageUpdated := (pendingStep E st kv).1.storageUpdated
      storageDeleted := (pendingStep E st kv).1.storageDeleted } := by
  simp only [pendingStep, writeWork, workSet, workGet]
  repeat' split
  all_goals rfl

theorem pendingStep_origin_or (E : Env) (st : SObj × List Word) (kv : Word × Word) :
    (pendingStep E st kv).1.originStorage = st.1.originStorage ∨
    (pendingStep E st kv).1.originStorage = ainsert st.1.originStorage kv.1 kv.2 := by
  simp only [pendingStep, writeWork, workSet, workGet]
  repeat' split
  all_goals first
  | exact Or.inl rfl
  | exact Or.inr rfl

theorem pendingStep_acc_or (E : Env) (st : SObj × List Word) (kv : Word × Word) :
    (pendingStep E st kv).2 = st.2 ∨
    (pendingStep E st kv).2 = st.2.filter (fun a => a ≠ kv.1) := by
  simp only [pendingStep, writeWork, workSet, workGet]
  repeat' split
  all_goals first
  | exact Or.inl rfl
  | exact Or.inr rfl

/-- A pending entry whose value matches the cached origin value is skipped
entirely by the pending-storage loop. -/
theorem pendingStep_noop (E : Env) (st : SObj × List Word) (key v : Word)
    (h1 : alookup st.1.originStorage key = some v) :
    pendingStep E st (key, v) = st := by
  simp [pendingStep, h1]

/-- The epoch-refresh step at the accessed key itself, on a state where the
slot is a cache hit with value v: the working revive trie receives the
unchanged trimmed value under the key, and the mutated-slot table receives
the value re-encoded with the current epoch under the key digest. -/
theorem accessStep_at_key (E : Env) (σ : SObj) (key v : Word)
    (hexp : E.enableExpire = true)
    (hd : alookup σ.dirtyStorage key = none)
    (hp : ∀ pv, alookup σ.pendingStorage key = some pv → pv = v)
    (hr : alookup σ.pendingReviveState (E.keccak key) = none)
    (ho : alookup σ.originStorage key = some v) :
    alookup ((accessStep E σ key).pendingReviveTrie.getD []) key =
      some (some (trimLeftZeroes v)) ∧
    alookup (accessStep E σ key).dbStorages (E.keccak key) =
      some (some (EncodeValueToRLPBytes
        (.valueWithEpoch E.epoch (setBytes32 (trimLeftZeroes v))))) := by
  have hgs := getState_cache_hit E σ key v hd hp hr ho
  simp only [accessStep, writeWork, workSet, workGet, hgs, hexp, if_true]
  exact ⟨alookup_ainsert_self _ _ _, alookup_ainsert_self _ _ _⟩

/-- An epoch-refresh step at a different key preserves the cache-hit shape of
the tracked key: origin lookup, empty dirty storage, pending storage and the
revive-state miss. -/
theorem accessStep_preserves_pre (E : Env) (σ : SObj) (key k2 v : Word) (hk : k2 ≠ key)
    (hexp : E.enableExpire = true)
    (h1 : alookup σ.originStorage key = some v) (h2 : σ.dirtyStorage = [])
    (h3 : alookup σ.pendingReviveState (E.keccak key) = none) :
    alookup (accessStep E σ k2).originStorage key = some v ∧
    (accessStep E σ k2).dirtyStorage = [] ∧
    (accessStep E σ k2).pendingStorage = σ.pendingStorage ∧
    alookup (accessStep E σ k2).pendingReviveState (E.keccak key) = none := by
  have hf := getState_frame E σ k2
  have hor := getState_origin_or E σ k2
  simp only [accessStep, writeWork, workSet, workGet, hexp, if_true]
  refine ⟨?_, ?_, ?_, ?_⟩
  · rcases hor with hcase | hcase
    · rw [hcase, h1]
    · rw [hcase, alookup_ainsert_ne _ _ _ _ (fun hc => hk hc.symm), h1]
  · rw [hf.dirtyStorage_eq, h2]
  · exact hf.pendingStorage_eq
  · rw [hf.pendingReviveState_eq, h3]

/-- An epoch-refresh step at a different key (whose digest also differs)
preserves the working-trie entry and the mutated-slot entry of the tracked
key. -/
theorem accessStep_preserves_post (E : Env) (σ : SObj) (key k2 : Word)
    (x y : Option (Option Bytes)) (hk : k2 ≠ key) (hkh : E.keccak k2 ≠ E.keccak key)
    (hexp : E.enableExpire = true)
    (h1 : alookup (σ.pendingReviveTrie.getD []) key = x)
    (h2 : alookup σ.dbStorages (E.keccak key) = y) :
    alookup ((accessStep E σ k2).pendingReviveTrie.getD []) key = x ∧
    alookup (accessStep E σ k2).dbStorages (E.keccak key) = y := by
  have hf := getState_frame E σ k2
  simp only [accessStep, writeWork, workSet, workGet, hexp, if_true, Option.getD_some]
  constructor
  · rw [alookup_ainsert_ne _ _ _ _ (fun hc => hk hc.symm), hf.pendingReviveTrie_eq, h1]
  · rw [alookup_ainsert_ne _ _ _ _ (fun hc => hkh hc.symm), hf.dbStorages_eq, h2]

/-- The shape of updateTrieBody in expiry mode. -/
theorem updateTrieBody_expire (E : Env) (s0 : SObj) (hexp : E.enableExpire = true) :
    updateTrieBody E s0 =
      (let p := s0.pendingStorage.foldl (pendingStep E)
         (s0, s0.pendingAccessedState.map Prod.fst)
       let s1 := p.2.foldl (accessStep E) p.1
       let tr := s1.pendingReviveTrie.getD []
       ({ s1 with
          pendingStorage := []
          pendingReviveState := []
          pendingAccessedState := []
          originStorageEpoch := []
          pendingReviveTrie := none
          trie := some tr }, tr)) := by
  simp only [updateTrieBody, workGet, hexp, if_true]

/-- The heart of the epoch refresh: in expiry mode, a key in the accessed set
whose pending entry (if any) is a no-op, whose slot is cached in
originStorage with value v, and whose revive state misses, is re-read and
rewritten by updateTrieBody: the working trie receives the unchanged trimmed
value and the mutated-slot table receives the value re-encoded with the
current epoch. -/
theorem updateTrieBody_access (E : Env) (s0 : SObj) (key v : Word)
    (hexp : E.enableExpire = true)
    (hinj : Function.Injective E.keccak)
    (hnodA : (s0.pendingAccessedState.map Prod.fst).Nodup)
    (hmem : key ∈ s0.pendingAccessedState.map Prod.fst)
    (hnodP : (s0.pendingStorage.map Prod.fst).Nodup)
    (hpend : ∀ pv, alookup s0.pendingStorage key = some pv → pv = v)
    (hd : s0.dirtyStorage = [])
    (hrev : alookup s0.pendingReviveState (E.keccak key) = none)
    (horig : alookup s0.originStorage key = some v) :
    alookup (updateTrieBody E s0).2 key = some (some (trimLeftZeroes v)) ∧
    alookup (updateTrieBody E s0).1.dbStorages (E.keccak key) =
      some (some (EncodeValueToRLPBytes
        (.valueWithEpoch E.epoch (setBytes32 (trimLeftZeroes v))))) := by
  have hInvP := foldlInv (pendingStep E)
    (fun st => alookup st.1.originStorage key = some v ∧ st.1.dirtyStorage = [] ∧
      st.1.pendingStorage = s0.pendingStorage ∧
      alookup st.1.pendingReviveState (E.keccak key) = none ∧
      key ∈ st.2 ∧ st.2.Nodup)
    s0.pendingStorage (s0, s0.pendingAccessedState.map Prod.fst)
    ⟨horig, hd, rfl, hrev, hmem, hnodA⟩
    (fun st kv hm hb => by
      obtain ⟨hb1, hb2, hb3, hb4, hb5, hb6⟩ := hb
      obtain ⟨k, w⟩ := kv
      by_cases hk : k = key
      · subst hk
        have hw : w = v := hpend w (alookup_mem_of_nodup hnodP hm)
        subst hw
        rw [pendingStep_noop E st k w hb1]
        exact ⟨hb1, hb2, hb3, hb4, hb5, hb6⟩
      · refine ⟨?_, ?_, ?_, ?_, ?_, ?_⟩
        · rcases pendingStep_origin_or E st (k, w) with hc | hc
          · rw [hc]
            exact hb1
          · rw [hc, alookup_ainsert_ne _ _ _ _ (fun hcc => hk hcc.symm)]
            exact hb1
        · rw [pendingStep_frame]
          exact hb2
        · rw [pendingStep_frame]
          exact hb3
        · rw [pendingStep_frame]
          exact hb4
        · rcases pendingStep_acc_or E st (k, w) with hc | hc
          · rw [hc]
            exact hb5
          · rw [hc]
            exact List.mem_filter.mpr ⟨hb5, decide_eq_true (fun hcc => hk hcc.symm)⟩
        · rcases pendingStep_acc_or E st (k, w) with hc | hc
          · rw [hc]
            exact hb6
          · rw [hc]
            exact hb6.filter _)
  rw [updateTrieBody_expire E s0 hexp]
  simp only []
  set p := s0.pendingStorage.foldl (pendingStep E)
    (s0, s0.pendingAccessedState.map Prod.fst) with hpdef
  obtain ⟨ho1, hd1, hp1, hr1, hmem1, hnod1⟩ := hInvP
  obtain ⟨pre, post, hacc, hkpre, hkpost⟩ := mem_nodup_split hmem1 hnod1
  rw [hacc, List.foldl_append, List.foldl_cons]
  have hPre := foldlInv (accessStep E)
    (fun t => alookup t.originStorage key = some v ∧ t.dirtyStorage = [] ∧
      t.pendingStorage = s0.pendingStorage ∧
      alookup t.pendingReviveState (E.keccak key) = none)
    pre p.1 ⟨ho1, hd1, hp1, hr1⟩
    (fun t k2 hk2 hb => by
      have hk2ne : k2 ≠ key := fun hc => hkpre (hc ▸ hk2)
      obtain ⟨b1, b2, b3, b4⟩ := hb
      obtain ⟨c1, c2, c3, c4⟩ := accessStep_preserves_pre E t key k2 v hk2ne hexp b1 b2 b4
      exact ⟨c1, c2, c3.trans b3, c4⟩)
  obtain ⟨e1, e2, e3, e4⟩ := hPre
  have hAt := accessStep_at_key E (pre.foldl (accessStep E) p.1) key v hexp
    (by rw [e2]; rfl)
    (fun pv hpv => hpend pv (by rw [e3] at hpv; exact hpv))
    e4 e1
  have hPost := foldlInv (accessStep E)
    (fun t => alookup (t.pendingReviveTrie.getD []) key = some (some (trimLeftZeroes v)) ∧
      alookup t.dbStorages (E.keccak key) = some (some (EncodeValueToRLPBytes
        (.valueWithEpoch E.epoch (setBytes32 (trimLeftZeroes v))))))
    post (accessStep E (pre.foldl (accessStep E) p.1) key) hAt
    (fun t k2 hk2 hb => by
      have hk2ne : k2 ≠ key := fun hc => hkpost (hc ▸ hk2)
      have hkh : E.keccak k2 ≠ E.keccak key := fun hc => hk2ne (hinj hc)
      exact accessStep_preserves_post E t key k2 _ _ hk2ne hkh hexp hb.1 hb.2)
  exact ⟨hPost.1, hPost.2⟩

/-- C5: access-epoch refresh.  First part: in expiry mode, a GetState read
that misses dirtyStorage, resolves to a non-zero value, and finds the cached
origin epoch of the slot strictly below the current epoch, bumps the pending
accessed-state counter of the key.  Second part: on the next updateTrie, a
key still in the accessed set whose pending entry (if any) is a no-op value
change, whose slot is cached with value v, and whose revive state misses, is
re-read and rewritten: the working trie returned by updateTrie holds the
unchanged trimmed value under the key, and the mutated-slot table of the
final state holds the value re-encoded with the current epoch under the key
digest. -/
theorem accessEpoch_refresh :
    (∀ (E : Env) (s : SObj) (key : Word),
      E.enableExpire = true →
      alookup s.dirtyStorage key = none →
      (GetCommittedState E s key).1 ≠ zeroWord →
      (alookup (GetCommittedState E s key).2.originStorageEpoch key).getD 0 < E.epoch →
      alookup (GetState E s key).2.pendingAccessedState key =
        some ((alookup s.pendingAccessedState key).getD 0 + 1)) ∧
    (∀ (E : Env) (s : SObj) (key v : Word) (tr : TrieLog) (s2 : SObj),
      E.enableExpire = true →
      Function.Injective E.keccak →
      (s.pendingAccessedState.map Prod.fst).Nodup →
      key ∈ s.pendingAccessedState.map Prod.fst →
      (((finalise s false).pendingStorage).map Prod.fst).Nodup →
      (∀ pv, alookup (finalise s false).pendingStorage key = some pv → pv = v) →
      alookup s.pendingReviveState (E.keccak key) = none →
      alookup s.originStorage key = some v →
      updateTrie E s = (.ok (some tr), s2) →
      alookup tr key = some (some (trimLeftZeroes v)) ∧
      alookup s2.dbStorages (E.keccak key) =
        some (some (EncodeValueToRLPBytes
          (.valueWithEpoch E.epoch (setBytes32 (trimLeftZeroes v)))))) := by
  constructor
  · intro E s key hexp hd hval heph
    simp only [GetState, hd]
    rw [if_pos hval]
    rw [accessState_bump E (GetCommittedState E s key).2 key hexp heph]
    show alookup (ainsert (GetCommittedState E s key).2.pendingAccessedState key
      ((alookup (GetCommittedState E s key).2.pendingAccessedState key).getD 0 + 1)) key = _
    rw [gcs_pAS E s key, alookup_ainsert_self]
  · intro E s key v tr s2 hexp hinj hnodA hmem hnodP hpend hrev horig hupd
    have hpne : s.pendingAccessedState ≠ [] := by
      intro hc
      rw [hc] at hmem
      simp at hmem
    have hneed : needUpdateTrie E (finalise s false) = true := by
      unfold needUpdateTrie
      rw [hexp]
      have hq : (finalise s false).pendingAccessedState.isEmpty = false := by
        show s.pendingAccessedState.isEmpty = false
        cases hqq : s.pendingAccessedState
        · exact absurd hqq hpne
        · rfl
      simp [hq]
    simp only [updateTrie, hneed, hexp, Bool.not_true, Bool.false_eq_true, if_false,
      eq_self_iff_true, if_true] at hupd
    generalize hmg : getPendingReviveTrieM E (finalise s false) = m at hupd
    obtain ⟨m1, m2⟩ := m
    cases m1 with
    | error e0 =>
      have hcontra : (Except.error e0 : Except GoErr (Option TrieLog)) = .ok (some tr) :=
        congrArg Prod.fst hupd
      exact Except.noConfusion hcontra
    | ok u =>
      have htr : (updateTrieBody E m2).2 = tr := by
        have h1 : (Except.ok (some (updateTrieBody E m2).2) : Except GoErr (Option TrieLog)) =
            .ok (some tr) := congrArg Prod.fst hupd
        exact Option.some.inj (Except.ok.inj h1)
      have hs2 : (updateTrieBody E m2).1 = s2 := congrArg Prod.snd hupd
      have hm2 : m2 = { (finalise s false) with
          trie := m2.trie
          pendingReviveTrie := m2.pendingReviveTrie } := by
        have hf := getPRT_frame E (finalise s false)
        rw [hmg] at hf
        exact hf
      have hA : m2.pendingAccessedState = s.pendingAccessedState := by
        conv_lhs => rw [hm2]
        rfl
      have hP : m2.pendingStorage = (finalise s false).pendingStorage := by
        conv_lhs => rw [hm2]
      have hD : m2.dirtyStorage = [] := by
        conv_lhs => rw [hm2]
        rfl
      have hR : m2.pendingReviveState = s.pendingReviveState := by
        conv_lhs => rw [hm2]
        rfl
      have hO : m2.originStorage = s.originStorage := by
        conv_lhs => rw [hm2]
        rfl
      have hres := updateTrieBody_access E m2 key v hexp hinj
        (by rw [hA]; exact hnodA)
        (by rw [hA]; exact hmem)
        (by rw [hP]; exact hnodP)
        (fun pv hpv => hpend pv (by rw [hP] at hpv; exact hpv))
        hD
        (by rw [hR]; exact hrev)
        (by rw [hO]; exact horig)
      rw [htr, hs2] at hres
      exact hres

/-- Witness for C5: with the current epoch at 5 and an empty epoch cache, a
GetState read of the slot kOne (cached value wSeven) records the access; then
updateTrie on an object whose accessed set holds kOne rewrites the slot
unchanged to the working trie and records the epoch-5 encoding in the
mutated-slot table. -/
theorem accessEpoch_refresh_witness :
    alookup (GetState envExpire5 objOriginSeven kOne).2.pendingAccessedState kOne = some 1 ∧
    alookup (updateTrie envExpire5 objAccessedSeven).2.dbStorages kOne =
      some (some (EncodeValueToRLPBytes
        (.valueWithEpoch 5 (setBytes32 (trimLeftZeroes wSeven))))) := by
  constructor
  · exact accessEpoch_refresh.1 envExpire5 objOriginSeven kOne rfl (by decide)
      (by decide) (by decide)
  · have h := (accessEpoch_refresh.2 envExpire5 objAccessedSeven kOne wSeven
      [(kOne, some (trimLeftZeroes wSeven))] (updateTrie envExpire5 objAccessedSeven).2
      rfl (fun a b hab => hab) (by decide) (by decide) (by decide)
      (fun pv hpv => by
        have hz : alookup (finalise objAccessedSeven false).pendingStorage kOne =
            (none : Option Word) := rfl
        rw [hz] at hpv
        exact Option.noConfusion hpv) (by decide) (by decide)
      (by decide)).2
    exact h
